import Mathlib

/-!
# Formal model of the KNN decision-boundary visualizer (src/src/App.tsx)

Shallow embedding of the classification-and-binning core of `drawVisualization`
(App.tsx lines 35-134).  Conventions of the embedding:

* JavaScript numbers used as data coordinates are modelled as `Option ℚ`:
  `some q` is an ordinary finite number, `none` models NaN — including the NaN
  produced by arithmetic on the non-numeric `"NA"` entries that Papa.parse with
  `dynamicTyping` leaves in the Palmer-penguins rows.  Query coordinates (hex
  cell centers) are always finite rationals.
* The source computes `Math.sqrt(dx*dx_like + dy*dy_like)` (line 76) and only
  ever compares these distances.  `Math.sqrt` is strictly monotone on `[0, ∞)`,
  so every comparison orders exactly as the squared distances do; the embedding
  therefore stores the squared Euclidean distance and omits the square root,
  which keeps every definition executable over `ℚ`.
* `Array.prototype.sort` is stable (ECMAScript 2019); a comparator result that
  is NaN is treated as `+0` by the ECMAScript `SortCompare`, i.e. the two
  elements compare as equal and the stable sort keeps their original relative
  order.  The sort is embedded as a stable insertion sort with the boolean
  order derived from the comparator `(a, b) => a.distance - b.distance`.
* `d3.rollup` groups into an `InternMap`, whose iteration order (read off by
  `Array.from`) is key-insertion order; it is embedded as an association list
  built left to right.
* `Array.prototype.reduce` with no initial value throws a `TypeError` on an
  empty array; fallible steps return `Except JsError`.
-/

/-- Errors a JavaScript evaluation of the core can raise.  `typeError` models
the TypeError thrown by `Array.prototype.reduce` on an empty array with no
initial value; `insufficientData` models the `InsufficientData` condition named
by the specification (no expression of the source ever produces it). -/
inductive JsError where
  | typeError
  | insufficientData
  deriving DecidableEq, Repr

deriving instance DecidableEq for Except

/-- A JavaScript number used as a data coordinate: `some q` is a finite number,
`none` models NaN (or the non-numeric `"NA"` a CSV row carries, which every
arithmetic operation of the source turns into NaN). -/
abbrev JsNum := Option ℚ

/-- NaN-propagating subtraction of a finite query coordinate from a data
coordinate, modelling `d.bill_length_mm - point[0]` (App.tsx line 76). -/
def jsSub (a : JsNum) (b : ℚ) : JsNum := a.map (fun x => x - b)

/-- NaN-propagating squaring, modelling `Math.pow(x, 2)` (App.tsx line 76). -/
def jsSq (a : JsNum) : JsNum := a.map (fun x => x * x)

/-- NaN-propagating addition (App.tsx line 76). -/
def jsAdd (a b : JsNum) : JsNum :=
  match a, b with
  | some x, some y => some (x + y)
  | _, _ => none

/-- One CSV row as consumed by the component (`interface Penguin`, App.tsx
lines 6-10). -/
structure Penguin where
  species : String
  bill_length_mm : JsNum
  bill_depth_mm : JsNum
  deriving DecidableEq, Repr

/-- A query coordinate in data space: a hex cell center handed to
`classifyPoint` (App.tsx line 91).  Cell centers are always finite numbers. -/
abbrev Point := ℚ × ℚ

/-- One entry of the `distances` array built inside `classifyPoint` (App.tsx
lines 74-77).  `distance` holds the squared Euclidean distance (see the header
note on `Math.sqrt`); it is NaN (`none`) exactly when a data coordinate is. -/
structure Neighbor where
  species : String
  distance : JsNum
  deriving DecidableEq, Repr

/-- The `distances` array of `classifyPoint` (App.tsx lines 74-77): one record
per element of `limitedData`, with no filtering of any kind. -/
def distRecords (pts : List Penguin) (q : Point) : List Neighbor :=
  pts.map (fun d =>
    { species := d.species
      distance := jsAdd (jsSq (jsSub d.bill_length_mm q.1))
                        (jsSq (jsSub d.bill_depth_mm q.2)) })

/-- Boolean order derived from the sort comparator of App.tsx line 78,
`(a, b) => a.distance - b.distance`: `distLe a b` holds when the comparator
returns a value ≤ 0, and also when it returns NaN (a NaN comparator result is
treated as `+0` by the ECMAScript SortCompare, so the elements compare equal
and the stable sort keeps their relative order). -/
def distLe (a b : Neighbor) : Bool :=
  match a.distance, b.distance with
  | some x, some y => decide (x ≤ y)
  | _, _ => true

/-- Insert `x` into an already sorted list: `x` passes every element strictly
before it and stops in front of the first element it compares less-or-equal
to, so elements comparing equal keep their original relative order. -/
def insertSorted (le : α → α → Bool) (x : α) : List α → List α
  | [] => [x]
  | y :: ys => if le x y then x :: y :: ys else y :: insertSorted le x ys

/-- Stable sort modelling `Array.prototype.sort` (App.tsx line 78), which
ECMAScript 2019 requires to be stable. -/
def stableSort (le : α → α → Bool) : List α → List α
  | [] => []
  | x :: xs => insertSorted le x (stableSort le xs)

/-- The `distances` array after the in-place sort of App.tsx line 78. -/
def sortedRecords (pts : List Penguin) (q : Point) : List Neighbor :=
  stableSort distLe (distRecords pts q)

/-- `nearestNeighbors = distances.slice(0, currentK)` (App.tsx line 79). -/
def nearestNeighbors (pts : List Penguin) (k : Nat) (q : Point) : List Neighbor :=
  (sortedRecords pts q).take k

/-- The species of the k nearest neighbors, in distance-sorted order: the list
the vote of App.tsx lines 80-81 is tallied over. -/
def neighborSpecies (pts : List Penguin) (k : Nat) (q : Point) : List String :=
  (nearestNeighbors pts k q).map Neighbor.species

/-- One step of `d3.rollup` with reducer `v => v.length`: an InternMap keeps
its keys in insertion order, so an existing key has its count bumped in place
and a new key is appended at the end. -/
def tallyInsert [BEq β] (acc : List (β × Nat)) (s : β) : List (β × Nat) :=
  if acc.any (fun p => p.1 == s)
  then acc.map (fun p => if p.1 == s then (p.1, p.2 + 1) else p)
  else acc ++ [(s, 1)]

/-- `Array.from(d3.rollup(l, v => v.length, key))` (App.tsx lines 80-81 and
101-102): the insertion-ordered association list of key frequencies. -/
def rollupCount [BEq β] (key : α → β) (l : List α) : List (β × Nat) :=
  l.foldl (fun acc x => tallyInsert acc (key x)) []

/-- The reducer of App.tsx lines 81 and 102, `(a, b) => a[1] > b[1] ? a : b`:
keeps the accumulator only when its count is strictly larger, so an incoming
pair with an equal count replaces it. -/
def pickMax (a b : β × Nat) : β × Nat := if a.2 > b.2 then a else b

/-- `Array.prototype.reduce` with no initial value: throws a TypeError on an
empty array, otherwise folds from the first element. -/
def jsReduce (f : α → α → α) : List α → Except JsError α
  | [] => .error .typeError
  | x :: xs => .ok (xs.foldl f x)

/-- The tally-and-argmax expression shared verbatim by the classifier vote
(App.tsx lines 80-81) and the density overlay (lines 101-103):
`Array.from(d3.rollup(l, v => v.length, key)).reduce((a, b) => a[1] > b[1] ? a : b)[0]`. -/
def jsMajorityBy [BEq β] (key : α → β) (l : List α) : Except JsError β :=
  (jsReduce pickMax (rollupCount key l)).map Prod.fst

/-- `classifyPoint` (App.tsx lines 73-82): distances from the query to every
element of `limitedData`, stable-sorted ascending, truncated to `currentK`,
tallied by species, reduced to the pair with the highest count. -/
def classifyPoint (pts : List Penguin) (k : Nat) (q : Point) : Except JsError String :=
  jsMajorityBy Neighbor.species (nearestNeighbors pts k q)

/-- The number of votes a species receives in the tally `classifyPoint` builds
for query `q` when the slider value is `k` (which is both the truncation count
of `limitedData = data.slice(0, currentK)`, App.tsx line 64, and the neighbor
count of line 79). -/
def countVotes (data : List Penguin) (k : Nat) (q : Point) (s : String) : Nat :=
  List.count s (neighborSpecies (data.take k) k q)

/-- An element of the `points` array of App.tsx line 65: the two-element array
`[d.bill_length_mm, d.bill_depth_mm]`.  It carries no species field. -/
abbrev BinPoint := JsNum × JsNum

/-- The `points` array handed to the hexbin generator (App.tsx line 65), built
from the truncated data with no filtering. -/
def hexbinInput (data : List Penguin) (k : Nat) : List BinPoint :=
  (data.take k).map (fun d => (d.bill_length_mm, d.bill_depth_mm))

/-- The property access `d.species` performed at App.tsx line 101 on a bin
element: bin elements are the two-element coordinate arrays of line 65, which
have no `species` property, so in JavaScript the access evaluates to
`undefined` (modelled `none`) for every element. -/
def binSpecies (_ : BinPoint) : Option String := none

/-- The fill computation of the density overlay (App.tsx lines 100-103): the
same rollup-and-reduce as the classifier, keyed by the `d.species` access on
the bin elements. -/
def densityMajority (bin : List BinPoint) : Except JsError (Option String) :=
  jsMajorityBy binSpecies bin

/-- Squared distance from a bin point to a cell center (`none` when a
coordinate is NaN). -/
def binDistSq (p : BinPoint) (c : Point) : JsNum :=
  jsAdd (jsSq (jsSub p.1 c.1)) (jsSq (jsSub p.2 c.2))

/-- Strict comparison of two possibly-NaN squared distances; any comparison
involving NaN is false. -/
def jsLt (a b : JsNum) : Bool :=
  match a, b with
  | some x, some y => decide (x < y)
  | _, _ => false

/-- Modelled from the spec: the binning of `d3-hexbin` (an external dependency
whose code is not part of this repository).  Spec section 4.2: each point is
assigned to the single nearest cell center of the grid (Euclidean distance),
with a deterministic tie rule — the earlier center in the center list wins; a
point all of whose center distances are NaN stays at the first center. -/
def assignBin (centers : List Point) (p : BinPoint) : Option Point :=
  match centers with
  | [] => none
  | c :: cs =>
    some (cs.foldl (fun a b => if jsLt (binDistSq p b) (binDistSq p a) then b else a) c)

/-- Modelled from the spec: `hexbinGenerator(points)` (App.tsx line 67, via the
external `d3-hexbin`).  Spec sections 4.2 and 4.4: the generator returns one
bin per cell that received at least one point — a cell with zero assigned
points produces no bin at all — and each bin carries its cell center together
with the points assigned to it. -/
def buildBins (centers : List Point) (pts : List BinPoint) : List (Point × List BinPoint) :=
  centers.filterMap (fun c =>
    let assigned := pts.filter (fun p => decide (assignBin centers p = some c))
    if assigned.isEmpty then none else some (c, assigned))

/-- The decision field (App.tsx lines 85-91): every hex grid cell center is
classified by `classifyPoint`, which closes over the whole truncated dataset
`limitedData = data.slice(0, currentK)` — not over the points binned at that
center. -/
def decisionField (data : List Penguin) (k : Nat) (centers : List Point) :
    List (Point × Except JsError String) :=
  centers.map (fun c => (c, classifyPoint (data.take k) k c))

/-- The density overlay field (App.tsx lines 94-104): one entry per hexbin
bin, labelled by the majority computation of lines 101-103. -/
def densityField (data : List Penguin) (k : Nat) (centers : List Point) :
    List (Point × Except JsError (Option String)) :=
  (buildBins centers (hexbinInput data k)).map (fun b => (b.1, densityMajority b.2))

/-- The two label fields one rebuild produces. -/
abbrev Fields :=
  List (Point × Except JsError String) × List (Point × Except JsError (Option String))

/-- One full rebuild of both fields: the orchestration entry point the
specification calls `recompute(points, k)` (the field-building core of
`drawVisualization`, App.tsx lines 35-134). -/
def recompute (data : List Penguin) (k : Nat) (centers : List Point) : Fields :=
  (decisionField data k centers, densityField data k centers)

/-- `drawVisualization` (App.tsx lines 35-134) restricted to its field-building
core: the guard of line 36 returns early when the dataset is empty (its
`svgRef` half is DOM state outside the model), leaving whatever was drawn
before unchanged; otherwise both fields are rebuilt from scratch. -/
def drawVisualization (data : List Penguin) (k : Nat) (centers : List Point)
    (prev : Fields) : Fields :=
  if data.length = 0 then prev else recompute data k centers

/-- The keys a run of `tallyInsert` appends to a tally whose key set is `ks`:
the elements of the input not already keyed, in order of first occurrence.
Proof device for the rollup lemmas. -/
def newKeys [BEq β] (ks : List β) : List β → List β
  | [] => []
  | s :: rest => if ks.contains s then newKeys ks rest else s :: newKeys (s :: ks) rest

/-- Index of the first occurrence of `s` in `l` (the length of `l` when `s`
does not occur): the position at which a label is first encountered in the
distance-sorted neighbor list. -/
def firstIdx [BEq β] (l : List β) (s : β) : Nat :=
  match l with
  | [] => 0
  | x :: rest => if x == s then 0 else firstIdx rest s + 1

/-- Total value lookup in a tally: the sum of the counts stored under key `s`
(a single entry once the tally's keys are distinct, which the rollup
maintains).  Proof device. -/
def valOf [BEq β] (t : List (β × Nat)) (s : β) : Nat :=
  (t.map (fun p => if p.1 == s then p.2 else 0)).sum

/-- A tally whose keys are pairwise distinct. -/
def KeysNodup [BEq β] (t : List (β × Nat)) : Prop :=
  (t.map Prod.fst).Nodup

/-! ## Sort lemmas: the stable sort is a permutation -/

theorem insertSorted_perm (le : α → α → Bool) (x : α) (l : List α) :
    (insertSorted le x l).Perm (x :: l) := by
  induction l with
  | nil => exact List.Perm.refl _
  | cons y ys ih =>
    rw [insertSorted]
    split
    · exact List.Perm.refl _
    · exact (ih.cons y).trans (List.Perm.swap x y ys)

theorem stableSort_perm (le : α → α → Bool) (l : List α) : (stableSort le l).Perm l := by
  induction l with
  | nil => exact List.Perm.refl _
  | cons x xs ih =>
    rw [stableSort]
    exact (insertSorted_perm le x (stableSort le xs)).trans (ih.cons x)

theorem length_sortedRecords (pts : List Penguin) (q : Point) :
    (sortedRecords pts q).length = pts.length := by
  rw [sortedRecords, (stableSort_perm distLe (distRecords pts q)).length_eq]
  simp [distRecords]

theorem nearestNeighbors_of_le (pts : List Penguin) (k : ℕ) (q : Point)
    (h : pts.length ≤ k) : nearestNeighbors pts k q = sortedRecords pts q := by
  rw [nearestNeighbors]
  apply List.take_of_length_le
  rw [length_sortedRecords]
  exact h

theorem count_of_perm [BEq β] {l₁ l₂ : List β} (h : l₁.Perm l₂) (s : β) :
    List.count s l₁ = List.count s l₂ :=
  h.countP_eq (fun x => x == s)

theorem distRecords_map_species (pts : List Penguin) (q : Point) :
    (distRecords pts q).map Neighbor.species = pts.map Penguin.species := by
  simp only [distRecords, List.map_map]
  rfl

theorem countVotes_eq_truncated (data : List Penguin) (k : ℕ) (q : Point) (s : String) :
    countVotes data k q s = List.count s ((data.take k).map Penguin.species) := by
  have hp : ((sortedRecords (data.take k) q).map Neighbor.species).Perm
      ((data.take k).map Penguin.species) := by
    have h := (stableSort_perm distLe (distRecords (data.take k) q)).map Neighbor.species
    rw [distRecords_map_species] at h
    exact h
  rw [countVotes, neighborSpecies,
    nearestNeighbors_of_le (data.take k) k q (List.length_take_le k data)]
  exact count_of_perm hp s

/-! ## C2, C3, C4, C5, C7, C8 -/

/-- C2: the truncation count and the classifier's k are the same slider
variable, so for every query point and every k ≥ 1 the neighbor list
`distances.slice(0, currentK)` is the whole sorted distance array over
`data.slice(0, currentK)` — a permutation of the distance records of the entire
truncated dataset — and the tallied species vote counts are exactly the species
frequencies of the truncated dataset, hence identical for every query point;
only the tally order can differ between queries. -/
theorem truncated_votes_query_independent (data : List Penguin) (k : ℕ) (q q2 : Point)
    (_hk : 1 ≤ k) :
    nearestNeighbors (data.take k) k q = sortedRecords (data.take k) q
    ∧ (nearestNeighbors (data.take k) k q).Perm (distRecords (data.take k) q)
    ∧ (∀ s, countVotes data k q s = List.count s ((data.take k).map Penguin.species))
    ∧ (∀ s, countVotes data k q s = countVotes data k q2 s) := by
  refine ⟨nearestNeighbors_of_le (data.take k) k q (List.length_take_le k data), ?_, ?_, ?_⟩
  · rw [nearestNeighbors_of_le (data.take k) k q (List.length_take_le k data), sortedRecords]
    exact stableSort_perm distLe (distRecords (data.take k) q)
  · exact fun s => countVotes_eq_truncated data k q s
  · exact fun s => (countVotes_eq_truncated data k q s).trans
      (countVotes_eq_truncated data k q2 s).symm

/-- Witness for C2 at a concrete dataset, k = 2 and two distinct queries. -/
theorem truncated_votes_query_independent_witness :
    1 ≤ 2
    ∧ (nearestNeighbors (([⟨"A", some 0, some 0⟩, ⟨"B", some 3, some 4⟩] : List Penguin).take 2) 2 (0, 0)
        = sortedRecords (([⟨"A", some 0, some 0⟩, ⟨"B", some 3, some 4⟩] : List Penguin).take 2) (0, 0)
      ∧ (nearestNeighbors (([⟨"A", some 0, some 0⟩, ⟨"B", some 3, some 4⟩] : List Penguin).take 2) 2 (0, 0)).Perm
          (distRecords (([⟨"A", some 0, some 0⟩, ⟨"B", some 3, some 4⟩] : List Penguin).take 2) (0, 0))
      ∧ (∀ s, countVotes [⟨"A", some 0, some 0⟩, ⟨"B", some 3, some 4⟩] 2 (0, 0) s
          = List.count s ((([⟨"A", some 0, some 0⟩, ⟨"B", some 3, some 4⟩] : List Penguin).take 2).map Penguin.species))
      ∧ (∀ s, countVotes [⟨"A", some 0, some 0⟩, ⟨"B", some 3, some 4⟩] 2 (0, 0) s
          = countVotes [⟨"A", some 0, some 0⟩, ⟨"B", some 3, some 4⟩] 2 (1, 1) s)) :=
  ⟨by decide, truncated_votes_query_independent _ 2 (0, 0) (1, 1) (by decide)⟩

/-- C3 counterexample: at the concrete empty point set (k = 1), the classifier
does not signal the explicit `InsufficientData` condition — evaluating the
embedded code yields the TypeError of reducing an empty array with no initial
value, which is a different condition. -/
theorem classify_empty_cx :
    classifyPoint [] 1 (0, 0) = Except.error JsError.typeError
    ∧ JsError.typeError ≠ JsError.insufficientData := by
  constructor
  · simp [classifyPoint, jsMajorityBy, nearestNeighbors, sortedRecords, stableSort, distRecords,
      rollupCount, jsReduce, Except.map]
  · decide

/-- C3 (corrected): for every k, calling classify with an empty point set does
not signal an explicit InsufficientData condition: it fails with the TypeError
thrown by reducing an empty array (and returns no default label).  The
orchestration layer, independently, guards on an empty dataset (App.tsx line
36) and skips the rebuild, leaving the prior fields unchanged. -/
theorem classify_empty_typeerror_and_skip (k : ℕ) (q : Point) (centers : List Point)
    (prev : Fields) :
    classifyPoint [] k q = Except.error JsError.typeError
    ∧ drawVisualization [] k centers prev = prev := by
  constructor
  · simp [classifyPoint, jsMajorityBy, nearestNeighbors, sortedRecords, stableSort, distRecords,
      rollupCount, jsReduce, Except.map]
  · rfl

/-- C4 counterexample: a concrete dataset whose first two points have a
missing (NaN) x coordinate.  The claim says such points are excluded from the
neighbor search and the binning; the code includes them: all three points
appear in the neighbor list, the two NaN points outvote the single valid point
(the returned label is their species "X"), and the NaN coordinate pair is
passed to the hexbin generator. -/
theorem nan_included_cx :
    classifyPoint [⟨"X", none, some 1⟩, ⟨"X", none, some 2⟩, ⟨"A", some 40, some 18⟩] 3 (40, 18)
      = Except.ok "X"
    ∧ (nearestNeighbors [⟨"X", none, some 1⟩, ⟨"X", none, some 2⟩, ⟨"A", some 40, some 18⟩] 3 (40, 18)).length = 3
    ∧ ((none : JsNum), (some 1 : JsNum))
        ∈ hexbinInput [⟨"X", none, some 1⟩, ⟨"X", none, some 2⟩, ⟨"A", some 40, some 18⟩] 3 := by
  refine ⟨?_, ?_, ?_⟩
  · norm_num [classifyPoint, jsMajorityBy, nearestNeighbors, sortedRecords, stableSort, insertSorted,
      distRecords, distLe, jsSub, jsSq, jsAdd, rollupCount, tallyInsert, jsReduce, pickMax, Except.map]
    decide
  · norm_num [nearestNeighbors, sortedRecords, stableSort, insertSorted,
      distRecords, distLe, jsSub, jsSq, jsAdd]
  · simp [hexbinInput]

/-- C4 (corrected): no exclusion is performed anywhere — every point of the
truncated dataset, including points with missing/NaN coordinates, contributes
a distance record to the neighbor search (species for species), and the hexbin
generator receives exactly the coordinate pairs of the whole truncated
dataset. -/
theorem no_nan_filtering (data : List Penguin) (k : ℕ) (q : Point) :
    (distRecords (data.take k) q).map Neighbor.species = (data.take k).map Penguin.species
    ∧ hexbinInput data k = (data.take k).map (fun d => (d.bill_length_mm, d.bill_depth_mm)) :=
  ⟨distRecords_map_species _ _, rfl⟩

/-- C7: the decision field classifies every hex grid cell center with
`classifyPoint`, which runs against the entire truncated PointSet — its
distance array covers every point of `limitedData` (species for species),
independent of which points were binned at that cell. -/
theorem decision_field_global (data : List Penguin) (k : ℕ) (centers : List Point)
    (c : Point) (hc : c ∈ centers) :
    (c, classifyPoint (data.take k) k c) ∈ decisionField data k centers
    ∧ (distRecords (data.take k) c).map Neighbor.species = (data.take k).map Penguin.species := by
  constructor
  · rw [decisionField]
    exact List.mem_map_of_mem _ hc
  · exact distRecords_map_species _ _

/-- Witness for C7 at a one-cell grid. -/
theorem decision_field_global_witness :
    ((0 : ℚ), (0 : ℚ)) ∈ ([((0 : ℚ), (0 : ℚ))] : List Point)
    ∧ ((((0 : ℚ), (0 : ℚ)), classifyPoint (([⟨"A", some 1, some 2⟩] : List Penguin).take 1) 1 (0, 0))
          ∈ decisionField [⟨"A", some 1, some 2⟩] 1 [(0, 0)]
      ∧ (distRecords (([⟨"A", some 1, some 2⟩] : List Penguin).take 1) (0, 0)).map Neighbor.species
          = (([⟨"A", some 1, some 2⟩] : List Penguin).take 1).map Penguin.species) :=
  ⟨by decide, decision_field_global [⟨"A", some 1, some 2⟩] 1 [(0, 0)] (0, 0) (by decide)⟩

/-- C8: a rebuild is a pure function of (points, k, grid geometry) — the
embedding of `drawVisualization`'s field construction involves only
deterministic operations (stable sort, insertion-ordered InternMap, reduce),
so two invocations with identical inputs produce identical DecisionField and
DensityField values. -/
theorem recompute_deterministic (d1 d2 : List Penguin) (k1 k2 : ℕ) (c1 c2 : List Point)
    (hd : d1 = d2) (hk : k1 = k2) (hc : c1 = c2) :
    recompute d1 k1 c1 = recompute d2 k2 c2 := by
  rw [hd, hk, hc]

/-- Witness for C8: two (syntactically separate) invocations on the same
concrete input. -/
theorem recompute_deterministic_witness :
    ([⟨"A", some 1, some 2⟩] : List Penguin) = [⟨"A", some 1, some 2⟩]
    ∧ 1 = 1
    ∧ ([((0 : ℚ), (0 : ℚ))] : List Point) = [((0 : ℚ), (0 : ℚ))]
    ∧ recompute [⟨"A", some 1, some 2⟩] 1 [(0, 0)] = recompute [⟨"A", some 1, some 2⟩] 1 [(0, 0)] :=
  ⟨rfl, rfl, rfl, recompute_deterministic _ _ _ _ _ _ rfl rfl rfl⟩

/-! ## Rollup tally lemmas: keys, insertion order, and stored counts -/

theorem contains_iff_mem [BEq β] [LawfulBEq β] (l : List β) (a : β) :
    l.contains a = true ↔ a ∈ l := List.elem_iff

theorem any_key_iff [BEq β] [LawfulBEq β] (acc : List (β × Nat)) (s : β) :
    acc.any (fun p => p.1 == s) = true ↔ s ∈ acc.map Prod.fst := by
  rw [List.any_eq_true]
  constructor
  · rintro ⟨p, hp, he⟩
    rw [beq_iff_eq] at he
    rw [← he]
    exact List.mem_map_of_mem _ hp
  · intro hs
    rcases List.mem_map.mp hs with ⟨p, hp, he⟩
    exact ⟨p, hp, by rw [beq_iff_eq]; exact he⟩

theorem tallyInsert_fst_of_mem [BEq β] {acc : List (β × Nat)} {s : β}
    (h : acc.any (fun p => p.1 == s) = true) :
    (tallyInsert acc s).map Prod.fst = acc.map Prod.fst := by
  rw [tallyInsert, if_pos h, List.map_map]
  apply List.map_congr_left
  intro p _
  simp only [Function.comp_apply]
  split <;> rfl

theorem tallyInsert_fst_of_not_mem [BEq β] {acc : List (β × Nat)} {s : β}
    (h : ¬ acc.any (fun p => p.1 == s) = true) :
    (tallyInsert acc s).map Prod.fst = acc.map Prod.fst ++ [s] := by
  rw [tallyInsert, if_neg h, List.map_append]
  rfl

theorem newKeys_congr [BEq β] [LawfulBEq β] {ks1 ks2 : List β}
    (h : ∀ a, a ∈ ks1 ↔ a ∈ ks2) : ∀ l, newKeys ks1 l = newKeys ks2 l
  | [] => rfl
  | s :: rest => by
    rw [newKeys, newKeys]
    by_cases hs : s ∈ ks1
    · rw [if_pos ((contains_iff_mem ks1 s).mpr hs),
        if_pos ((contains_iff_mem ks2 s).mpr ((h s).mp hs))]
      exact newKeys_congr h rest
    · have h2 : ∀ a, a ∈ s :: ks1 ↔ a ∈ s :: ks2 := by
        intro a
        simp only [List.mem_cons]
        exact or_congr Iff.rfl (h a)
      rw [if_neg (fun hc => hs ((contains_iff_mem ks1 s).mp hc)),
        if_neg (fun hc => hs ((h s).mpr ((contains_iff_mem ks2 s).mp hc)))]
      exact congrArg (List.cons s) (newKeys_congr h2 rest)

theorem newKeys_sub [BEq β] [LawfulBEq β] (a : β) :
    ∀ (l ks : List β), a ∈ newKeys ks l → a ∈ l ∧ a ∉ ks
  | [], _ => by intro h; cases h
  | s :: rest, ks => by
    rw [newKeys]
    by_cases hs : s ∈ ks
    · rw [if_pos ((contains_iff_mem ks s).mpr hs)]
      intro h
      obtain ⟨h1, h2⟩ := newKeys_sub a rest ks h
      exact ⟨List.mem_cons_of_mem s h1, h2⟩
    · rw [if_neg (fun hc => hs ((contains_iff_mem ks s).mp hc))]
      intro h
      rcases List.mem_cons.mp h with rfl | h3
      · exact ⟨List.mem_cons_self _ _, hs⟩
      · obtain ⟨h1, h2⟩ := newKeys_sub a rest (s :: ks) h3
        exact ⟨List.mem_cons_of_mem s h1, fun hk => h2 (List.mem_cons_of_mem s hk)⟩

theorem mem_newKeys [BEq β] [LawfulBEq β] (a : β) :
    ∀ (l ks : List β), a ∈ l → a ∉ ks → a ∈ newKeys ks l
  | [], _ => fun h _ => absurd h (List.not_mem_nil a)
  | s :: rest, ks => by
    intro hl hks
    rw [newKeys]
    by_cases hs : s ∈ ks
    · rw [if_pos ((contains_iff_mem ks s).mpr hs)]
      rcases List.mem_cons.mp hl with rfl | h3
      · exact absurd hs hks
      · exact mem_newKeys a rest ks h3 hks
    · rw [if_neg (fun hc => hs ((contains_iff_mem ks s).mp hc))]
      rcases List.mem_cons.mp hl with rfl | h3
      · exact List.mem_cons_self _ _
      · by_cases has : a = s
        · rw [has]
          exact List.mem_cons_self _ _
        · refine List.mem_cons_of_mem s (mem_newKeys a rest (s :: ks) h3 ?_)
          intro hc
          rcases List.mem_cons.mp hc with h4 | h4
          · exact has h4
          · exact hks h4

theorem firstIdx_cons_self [BEq β] [LawfulBEq β] (x : β) (rest : List β) :
    firstIdx (x :: rest) x = 0 := by
  simp [firstIdx]

theorem firstIdx_cons_ne [BEq β] [LawfulBEq β] {x a : β} (rest : List β) (h : x ≠ a) :
    firstIdx (x :: rest) a = firstIdx rest a + 1 := by
  simp [firstIdx, beq_eq_false_iff_ne.mpr h]

theorem newKeys_pairwise [BEq β] [LawfulBEq β] :
    ∀ (l ks : List β), (newKeys ks l).Pairwise (fun a b => firstIdx l a < firstIdx l b)
  | [], _ => List.Pairwise.nil
  | s :: rest, ks => by
    rw [newKeys]
    by_cases hs : s ∈ ks
    · rw [if_pos ((contains_iff_mem ks s).mpr hs)]
      refine List.Pairwise.imp_of_mem ?_ (newKeys_pairwise rest ks)
      intro a b ha hb hab
      have hA := newKeys_sub a rest ks ha
      have hB := newKeys_sub b rest ks hb
      have hsa : s ≠ a := fun he => hA.2 (he ▸ hs)
      have hsb : s ≠ b := fun he => hB.2 (he ▸ hs)
      rw [firstIdx_cons_ne rest hsa, firstIdx_cons_ne rest hsb]
      exact Nat.succ_lt_succ hab
    · rw [if_neg (fun hc => hs ((contains_iff_mem ks s).mp hc))]
      refine List.Pairwise.cons ?_ ?_
      · intro b hb
        have hB := newKeys_sub b rest (s :: ks) hb
        have hsb : s ≠ b := fun he => hB.2 (he ▸ List.mem_cons_self s ks)
        rw [firstIdx_cons_self, firstIdx_cons_ne rest hsb]
        exact Nat.succ_pos _
      · refine List.Pairwise.imp_of_mem ?_ (newKeys_pairwise rest (s :: ks))
        intro a b ha hb hab
        have hA := newKeys_sub a rest (s :: ks) ha
        have hB := newKeys_sub b rest (s :: ks) hb
        have hsa : s ≠ a := fun he => hA.2 (he ▸ List.mem_cons_self s ks)
        have hsb : s ≠ b := fun he => hB.2 (he ▸ List.mem_cons_self s ks)
        rw [firstIdx_cons_ne rest hsa, firstIdx_cons_ne rest hsb]
        exact Nat.succ_lt_succ hab

theorem keys_foldl_tallyInsert [BEq β] [LawfulBEq β] :
    ∀ (l : List β) (acc : List (β × Nat)),
      (l.foldl tallyInsert acc).map Prod.fst
        = acc.map Prod.fst ++ newKeys (acc.map Prod.fst) l
  | [], acc => by simp [newKeys]
  | s :: rest, acc => by
    rw [List.foldl_cons, keys_foldl_tallyInsert rest (tallyInsert acc s), newKeys]
    by_cases hs : s ∈ acc.map Prod.fst
    · rw [if_pos ((contains_iff_mem _ s).mpr hs),
        tallyInsert_fst_of_mem ((any_key_iff acc s).mpr hs)]
    · have hfst := @tallyInsert_fst_of_not_mem _ _ acc s
        (fun hc => hs ((any_key_iff acc s).mp hc))
      rw [if_neg (fun hc => hs ((contains_iff_mem _ s).mp hc)), hfst, List.append_assoc,
        List.singleton_append]
      congr 1
      congr 1
      apply newKeys_congr
      intro a
      simp [List.mem_append, List.mem_cons, or_comm]

theorem tallyInsert_keysNodup [BEq β] [LawfulBEq β] {acc : List (β × Nat)} (x : β)
    (h : KeysNodup acc) : KeysNodup (tallyInsert acc x) := by
  by_cases hx : acc.any (fun p => p.1 == x) = true
  · rw [KeysNodup, tallyInsert_fst_of_mem hx]
    exact h
  · rw [KeysNodup, tallyInsert_fst_of_not_mem hx, List.nodup_append]
    refine ⟨h, List.nodup_singleton x, ?_⟩
    intro a ha hs2
    rw [List.mem_singleton] at hs2
    subst hs2
    exact hx ((any_key_iff acc a).mpr ha)

theorem keysNodup_foldl [BEq β] [LawfulBEq β] :
    ∀ (l : List β) (acc : List (β × Nat)), KeysNodup acc → KeysNodup (l.foldl tallyInsert acc)
  | [], _, h => h
  | x :: rest, acc, h => keysNodup_foldl rest (tallyInsert acc x) (tallyInsert_keysNodup x h)

theorem valOf_nil [BEq β] (s : β) : valOf [] s = 0 := rfl

theorem valOf_cons [BEq β] (p : β × Nat) (t : List (β × Nat)) (s : β) :
    valOf (p :: t) s = (if p.1 == s then p.2 else 0) + valOf t s := by
  simp [valOf]

theorem valOf_append [BEq β] (t1 t2 : List (β × Nat)) (s : β) :
    valOf (t1 ++ t2) s = valOf t1 s + valOf t2 s := by
  simp [valOf]

theorem valOf_eq_zero_of_not_mem [BEq β] [LawfulBEq β] {t : List (β × Nat)} {s : β}
    (h : s ∉ t.map Prod.fst) : valOf t s = 0 := by
  induction t with
  | nil => rfl
  | cons p rest ih =>
    rw [List.map_cons] at h
    have h2 : ¬(s = p.1 ∨ s ∈ rest.map Prod.fst) := by
      simpa [List.mem_cons] using h
    obtain ⟨h3, h4⟩ := not_or.mp h2
    rw [valOf_cons, beq_eq_false_iff_ne.mpr (fun he => h3 he.symm), ih h4]
    simp

theorem valOf_of_mem [BEq β] [LawfulBEq β] {t : List (β × Nat)} {s : β} {n : Nat}
    (hnd : KeysNodup t) (h : (s, n) ∈ t) : valOf t s = n := by
  induction t with
  | nil => cases h
  | cons p rest ih =>
    rw [KeysNodup, List.map_cons, List.nodup_cons] at hnd
    rcases List.mem_cons.mp h with he | hr
    · cases he.symm
      rw [valOf_cons, beq_self_eq_true]
      simp [valOf_eq_zero_of_not_mem hnd.1]
    · have hps : p.1 ≠ s := by
        intro he2
        apply hnd.1
        rw [he2]
        exact List.mem_map_of_mem Prod.fst hr
      rw [valOf_cons, beq_eq_false_iff_ne.mpr hps, ih hnd.2 hr]
      simp

theorem mem_entry_of_key [BEq β] [LawfulBEq β] {t : List (β × Nat)} {s : β}
    (hnd : KeysNodup t) (h : s ∈ t.map Prod.fst) : (s, valOf t s) ∈ t := by
  induction t with
  | nil => simp at h
  | cons p rest ih =>
    rw [KeysNodup, List.map_cons, List.nodup_cons] at hnd
    rw [List.map_cons] at h
    rcases List.mem_cons.mp h with he | hr
    · subst he
      rw [valOf_cons, beq_self_eq_true]
      simp only [if_true]
      rw [valOf_eq_zero_of_not_mem hnd.1]
      exact List.mem_cons_self p rest
    · have hps : p.1 ≠ s := fun he2 => hnd.1 (he2 ▸ hr)
      rw [valOf_cons, beq_eq_false_iff_ne.mpr hps]
      simp only [Bool.false_eq_true, if_false, Nat.zero_add]
      exact List.mem_cons_of_mem p (ih hnd.2 hr)

/-! ## Stored counts after a full rollup -/

theorem valOf_bump [BEq β] [LawfulBEq β] :
    ∀ (acc : List (β × Nat)), KeysNodup acc → ∀ (x s : β), x ∈ acc.map Prod.fst →
      valOf (acc.map (fun p => if p.1 == x then (p.1, p.2 + 1) else p)) s
        = valOf acc s + (if x == s then 1 else 0)
  | [], _, x, s, hmem => by simp at hmem
  | p :: rest, hnd, x, s, hmem => by
    have hnds : p.1 ∉ rest.map Prod.fst ∧ (rest.map Prod.fst).Nodup := by
      simpa [KeysNodup, List.map_cons, List.nodup_cons] using hnd
    rw [List.map_cons, valOf_cons, valOf_cons]
    by_cases hpx : p.1 = x
    · have hrest : rest.map (fun r => if r.1 == x then (r.1, r.2 + 1) else r) = rest := by
        refine (List.map_congr_left ?_).trans (List.map_id rest)
        intro q hq
        have hq1 : q.1 ≠ x := by
          intro he
          apply hnds.1
          rw [hpx, ← he]
          exact List.mem_map_of_mem Prod.fst hq
        simp [beq_eq_false_iff_ne.mpr hq1]
      rw [hrest]
      subst hpx
      by_cases hps : p.1 = s
      · subst hps
        simp only [beq_self_eq_true, if_true]
        omega
      · simp only [beq_eq_false_iff_ne.mpr hps, beq_self_eq_true, if_true, Bool.false_eq_true,
          if_false]
        omega
    · have hx2 : x ∈ rest.map Prod.fst := by
        rw [List.map_cons] at hmem
        rcases List.mem_cons.mp hmem with he | h2
        · exact absurd he.symm hpx
        · exact h2
      rw [valOf_bump rest hnds.2 x s hx2]
      simp only [beq_eq_false_iff_ne.mpr hpx, Bool.false_eq_true, if_false]
      omega

theorem valOf_tallyInsert [BEq β] [LawfulBEq β] {acc : List (β × Nat)} (hnd : KeysNodup acc)
    (x s : β) :
    valOf (tallyInsert acc x) s = valOf acc s + (if x == s then 1 else 0) := by
  rw [tallyInsert]
  by_cases hx : acc.any (fun p => p.1 == x) = true
  · rw [if_pos hx]
    exact valOf_bump acc hnd x s ((any_key_iff acc x).mp hx)
  · rw [if_neg hx, valOf_append, valOf_cons, valOf_nil]
    simp

theorem valOf_foldl [BEq β] [LawfulBEq β] :
    ∀ (l : List β) (acc : List (β × Nat)), KeysNodup acc → ∀ s,
      valOf (l.foldl tallyInsert acc) s = valOf acc s + List.count s l
  | [], _, _, s => by simp
  | x :: rest, acc, hnd, s => by
    rw [List.foldl_cons, valOf_foldl rest (tallyInsert acc x) (tallyInsert_keysNodup x hnd) s,
      valOf_tallyInsert hnd x s, List.count_cons]
    omega

/-! ## The reduce of App.tsx line 81: last maximum wins -/

theorem foldl_pickMax_split :
    ∀ (xs : List (β × Nat)) (a : β × Nat),
      ∃ l1 l2, a :: xs = l1 ++ (xs.foldl pickMax a) :: l2
        ∧ (∀ p ∈ l1, p.2 ≤ (xs.foldl pickMax a).2)
        ∧ (∀ p ∈ l2, p.2 < (xs.foldl pickMax a).2)
  | [], a => ⟨[], [], rfl, by simp, by simp⟩
  | b :: rest, a => by
    rw [List.foldl_cons]
    obtain ⟨m1, m2, heq, h1, h2⟩ := foldl_pickMax_split rest (pickMax a b)
    by_cases hab : a.2 > b.2
    · rw [show pickMax a b = a from if_pos hab] at heq h1 h2 ⊢
      generalize hgen : rest.foldl pickMax a = r at heq h1 h2 ⊢
      cases m1 with
      | nil =>
        rw [List.nil_append] at heq
        injection heq with he1 he2
        refine ⟨[], b :: rest, ?_, by simp, ?_⟩
        · rw [List.nil_append, ← he1]
        · intro p hp
          rcases List.mem_cons.mp hp with rfl | hp2
          · rw [← he1]
            exact hab
          · rw [he2] at hp2
            exact h2 p hp2
      | cons c m1t =>
        injection heq with he1 he2
        refine ⟨c :: b :: m1t, m2, ?_, ?_, h2⟩
        · rw [he1, he2]
          rfl
        · intro p hp
          rcases List.mem_cons.mp hp with rfl | hp2
          · exact h1 p (List.mem_cons_self p m1t)
          rcases List.mem_cons.mp hp2 with rfl | hp3
          · have hca := h1 c (List.mem_cons_self c m1t)
            rw [← he1] at hca
            exact le_trans (le_of_lt hab) hca
          · exact h1 p (List.mem_cons_of_mem c hp3)
    · have hab2 : a.2 ≤ b.2 := Nat.le_of_not_lt hab
      rw [show pickMax a b = b from if_neg hab] at heq h1 h2 ⊢
      generalize hgen : rest.foldl pickMax b = r at heq h1 h2 ⊢
      cases m1 with
      | nil =>
        rw [List.nil_append] at heq
        injection heq with he1 he2
        refine ⟨[a], m2, ?_, ?_, h2⟩
        · rw [List.singleton_append, ← he1, ← he2]
        · intro p hp
          rw [List.mem_singleton] at hp
          subst hp
          rw [← he1]
          exact hab2
      | cons c m1t =>
        injection heq with he1 he2
        refine ⟨a :: c :: m1t, m2, ?_, ?_, h2⟩
        · rw [he1, he2]
          rfl
        · intro p hp
          rcases List.mem_cons.mp hp with rfl | hp2
          · have hca := h1 c (List.mem_cons_self c m1t)
            rw [← he1] at hca
            exact le_trans hab2 hca
          · exact h1 p hp2

theorem rollupCount_eq [BEq β] (key : α → β) (l : List α) :
    rollupCount key l = (l.map key).foldl tallyInsert [] :=
  (List.foldl_map key tallyInsert l []).symm

/-- Master characterization of the vote of App.tsx lines 80-81 over any list of
labels: the reduce returns the pair of a label of the list together with its
exact frequency; that frequency is maximal; and among the labels tied at the
maximal frequency the returned one is the one whose first occurrence in the
list comes latest (the reducer keeps the incoming pair on equal counts, and the
InternMap iterates keys in first-occurrence order). -/
theorem tally_reduce_spec [BEq β] [LawfulBEq β] (l : List β) (h : l ≠ []) :
    ∃ r : β × Nat,
      jsReduce pickMax (l.foldl tallyInsert []) = Except.ok r
      ∧ r.1 ∈ l
      ∧ r.2 = List.count r.1 l
      ∧ (∀ s ∈ l, List.count s l ≤ List.count r.1 l)
      ∧ (∀ s ∈ l, List.count s l = List.count r.1 l →
          firstIdx l s ≤ firstIdx l r.1) := by
  have hkeys : (l.foldl tallyInsert []).map Prod.fst = newKeys [] l := by
    rw [keys_foldl_tallyInsert l []]
    simp
  have hnd : KeysNodup (l.foldl tallyInsert []) :=
    keysNodup_foldl l [] (by simp [KeysNodup])
  have hpair : ((l.foldl tallyInsert []).map Prod.fst).Pairwise
      (fun a b => firstIdx l a < firstIdx l b) := by
    rw [hkeys]
    exact newKeys_pairwise l []
  have hval : ∀ s, valOf (l.foldl tallyInsert []) s = List.count s l := by
    intro s
    rw [valOf_foldl l [] (by simp [KeysNodup]) s, valOf_nil]
    simp
  have hmemkeys : ∀ s, s ∈ l → s ∈ (l.foldl tallyInsert []).map Prod.fst := by
    intro s hs
    rw [hkeys]
    exact mem_newKeys s l [] hs (List.not_mem_nil s)
  obtain ⟨x, xs, htx⟩ : ∃ x xs, l.foldl tallyInsert [] = x :: xs := by
    cases hl : l.foldl tallyInsert [] with
    | nil =>
      exfalso
      obtain ⟨y, ys, rfl⟩ := List.exists_cons_of_ne_nil h
      have hy := hmemkeys y (List.mem_cons_self y ys)
      rw [hl] at hy
      simp at hy
    | cons x xs => exact ⟨x, xs, rfl⟩
  obtain ⟨l1, l2, hsplit, hle, hlt⟩ := foldl_pickMax_split xs x
  have hrt : xs.foldl pickMax x ∈ l.foldl tallyInsert [] := by
    rw [htx, hsplit]
    exact List.mem_append_right l1 (List.mem_cons_self _ l2)
  have hr1 : (xs.foldl pickMax x).1 ∈ l := by
    have hm := List.mem_map_of_mem Prod.fst hrt
    rw [hkeys] at hm
    exact (newKeys_sub _ l [] hm).1
  have hrval : valOf (l.foldl tallyInsert []) (xs.foldl pickMax x).1 = (xs.foldl pickMax x).2 :=
    valOf_of_mem hnd hrt
  have hrcnt : (xs.foldl pickMax x).2 = List.count (xs.foldl pickMax x).1 l := by
    rw [← hrval, hval]
  have hentry : ∀ s ∈ l,
      (s, valOf (l.foldl tallyInsert []) s) ∈ l1 ++ (xs.foldl pickMax x) :: l2 := by
    intro s hs
    rw [← hsplit, ← htx]
    exact mem_entry_of_key hnd (hmemkeys s hs)
  refine ⟨xs.foldl pickMax x, ?_, hr1, hrcnt, ?_, ?_⟩
  · rw [htx]
    rfl
  · intro s hs
    rcases List.mem_append.mp (hentry s hs) with hin1 | hin12
    · have hb : valOf (l.foldl tallyInsert []) s ≤ (xs.foldl pickMax x).2 := hle _ hin1
      rw [hval] at hb
      rw [← hrcnt]
      exact hb
    rcases List.mem_cons.mp hin12 with he | hin2
    · have hfst : s = (xs.foldl pickMax x).1 := congrArg Prod.fst he
      rw [hfst]
    · have hb : valOf (l.foldl tallyInsert []) s < (xs.foldl pickMax x).2 := hlt _ hin2
      rw [hval] at hb
      rw [← hrcnt]
      exact le_of_lt hb
  · intro s hs hcnt
    by_cases hsr : s = (xs.foldl pickMax x).1
    · rw [hsr]
    · rcases List.mem_append.mp (hentry s hs) with hin1 | hin12
      · have hsk : s ∈ l1.map Prod.fst := List.mem_map_of_mem Prod.fst hin1
        have hpair2 := hpair
        rw [htx, hsplit, List.map_append, List.map_cons] at hpair2
        exact le_of_lt ((List.pairwise_append.mp hpair2).2.2 s hsk _
          (List.mem_cons_self _ _))
      rcases List.mem_cons.mp hin12 with he | hin2
      · exact absurd (congrArg Prod.fst he) hsr
      · exfalso
        have hb : valOf (l.foldl tallyInsert []) s < (xs.foldl pickMax x).2 := hlt _ hin2
        rw [hval, hcnt, ← hrcnt] at hb
        exact lt_irrefl _ hb

theorem classifyPoint_eq_foldl (pts : List Penguin) (k : ℕ) (q : Point) :
    classifyPoint pts k q
      = (jsReduce pickMax ((neighborSpecies pts k q).foldl tallyInsert [])).map Prod.fst := by
  show (jsReduce pickMax (rollupCount Neighbor.species (nearestNeighbors pts k q))).map Prod.fst
      = _
  rw [rollupCount_eq]
  rfl

/-! ## C1, C5, C6, C9, C10 -/

/-- C1 counterexample: a two-point dataset, k = 2, query at the first point.
The distance-sorted neighbor list is ["A", "B"] with a 1-1 tie, so the
first-encountered tied label in the tallied iteration order is "A"; the code
returns "B" (the reduce of line 81 keeps the incoming pair on ties). -/
theorem classify_tiebreak_first_cx :
    neighborSpecies [⟨"A", some 0, some 0⟩, ⟨"B", some 3, some 4⟩] 2 (0, 0) = ["A", "B"]
    ∧ classifyPoint [⟨"A", some 0, some 0⟩, ⟨"B", some 3, some 4⟩] 2 (0, 0) = Except.ok "B" := by
  constructor
  · norm_num [neighborSpecies, nearestNeighbors, sortedRecords, stableSort, insertSorted,
      distRecords, distLe, jsSub, jsSq, jsAdd]
  · norm_num [classifyPoint, jsMajorityBy, nearestNeighbors, sortedRecords, stableSort,
      insertSorted, distRecords, distLe, jsSub, jsSq, jsAdd, rollupCount, tallyInsert, jsReduce,
      pickMax, Except.map]
    decide

/-- C1 (corrected): in classifyPoint, when several labels reach the highest
vote count among the k nearest neighbors, the returned label is the
last-encountered tied label in the tallied iteration order — the tied label
whose first occurrence comes latest in the distance-sorted neighbor list —
because the reduce of App.tsx line 81 keeps the incoming pair on equal counts;
in general the returned label is one of the neighbor species, its vote count
is maximal, and every label tied with it first occurs no later than it. -/
theorem classify_tiebreak_latest (pts : List Penguin) (k : ℕ) (q : Point)
    (h : neighborSpecies pts k q ≠ []) :
    ∃ lab, classifyPoint pts k q = Except.ok lab
      ∧ lab ∈ neighborSpecies pts k q
      ∧ (∀ s ∈ neighborSpecies pts k q,
          List.count s (neighborSpecies pts k q) ≤ List.count lab (neighborSpecies pts k q))
      ∧ (∀ s ∈ neighborSpecies pts k q,
          List.count s (neighborSpecies pts k q) = List.count lab (neighborSpecies pts k q) →
          firstIdx (neighborSpecies pts k q) s ≤ firstIdx (neighborSpecies pts k q) lab) := by
  obtain ⟨r, hred, hmem, _, hmax, htie⟩ := tally_reduce_spec (neighborSpecies pts k q) h
  refine ⟨r.1, ?_, hmem, hmax, htie⟩
  rw [classifyPoint_eq_foldl, hred]
  rfl

/-- Witness for C1 at the concrete tied dataset of the counterexample. -/
theorem classify_tiebreak_latest_witness :
    neighborSpecies [⟨"A", some 0, some 0⟩, ⟨"B", some 3, some 4⟩] 2 (0, 0) ≠ []
    ∧ ∃ lab,
        classifyPoint [⟨"A", some 0, some 0⟩, ⟨"B", some 3, some 4⟩] 2 (0, 0) = Except.ok lab
        ∧ lab ∈ neighborSpecies [⟨"A", some 0, some 0⟩, ⟨"B", some 3, some 4⟩] 2 (0, 0)
        ∧ (∀ s ∈ neighborSpecies [⟨"A", some 0, some 0⟩, ⟨"B", some 3, some 4⟩] 2 (0, 0),
            List.count s (neighborSpecies [⟨"A", some 0, some 0⟩, ⟨"B", some 3, some 4⟩] 2 (0, 0))
              ≤ List.count lab (neighborSpecies [⟨"A", some 0, some 0⟩, ⟨"B", some 3, some 4⟩] 2 (0, 0)))
        ∧ (∀ s ∈ neighborSpecies [⟨"A", some 0, some 0⟩, ⟨"B", some 3, some 4⟩] 2 (0, 0),
            List.count s (neighborSpecies [⟨"A", some 0, some 0⟩, ⟨"B", some 3, some 4⟩] 2 (0, 0))
              = List.count lab (neighborSpecies [⟨"A", some 0, some 0⟩, ⟨"B", some 3, some 4⟩] 2 (0, 0)) →
            firstIdx (neighborSpecies [⟨"A", some 0, some 0⟩, ⟨"B", some 3, some 4⟩] 2 (0, 0)) s
              ≤ firstIdx (neighborSpecies [⟨"A", some 0, some 0⟩, ⟨"B", some 3, some 4⟩] 2 (0, 0)) lab) :=
  ⟨(by
      norm_num [neighborSpecies, nearestNeighbors, sortedRecords, stableSort, insertSorted,
        distRecords, distLe, jsSub, jsSq, jsAdd]
      decide),
    classify_tiebreak_latest _ 2 (0, 0)
      (by
        norm_num [neighborSpecies, nearestNeighbors, sortedRecords, stableSort, insertSorted,
          distRecords, distLe, jsSub, jsSq, jsAdd]
        decide)⟩

/-- C5: for every query and every non-empty point set, if k ≥ |points| then
classify(q, points, k) equals classify(q, points, |points|) — the slice
(0, currentK) of the sorted distance list is already the whole list, so k is
effectively clamped to the number of available points rather than failing. -/
theorem classify_clamp (pts : List Penguin) (k : ℕ) (q : Point)
    (_hne : pts ≠ []) (hk : pts.length ≤ k) :
    classifyPoint pts k q = classifyPoint pts pts.length q := by
  show jsMajorityBy Neighbor.species (nearestNeighbors pts k q)
      = jsMajorityBy Neighbor.species (nearestNeighbors pts pts.length q)
  rw [nearestNeighbors_of_le pts k q hk,
    nearestNeighbors_of_le pts pts.length q (le_refl _)]

/-- Witness for C5: one point, k = 5. -/
theorem classify_clamp_witness :
    ([⟨"A", some 0, some 0⟩] : List Penguin) ≠ []
    ∧ ([⟨"A", some 0, some 0⟩] : List Penguin).length ≤ 5
    ∧ classifyPoint [⟨"A", some 0, some 0⟩] 5 (0, 0)
        = classifyPoint [⟨"A", some 0, some 0⟩]
            ([⟨"A", some 0, some 0⟩] : List Penguin).length (0, 0) :=
  ⟨by decide, by decide, classify_clamp _ 5 (0, 0) (by decide) (by decide)⟩

/-- C6: for every point set with at least one point and every k ≥ 1,
classifyPoint never reaches a failure — the tally reduced over is non-empty,
so the classification always returns a label (in particular no
InsufficientData-like condition can arise). -/
theorem classify_total (pts : List Penguin) (k : ℕ) (q : Point)
    (hne : pts ≠ []) (hk : 1 ≤ k) :
    ∃ lab, classifyPoint pts k q = Except.ok lab := by
  have hns : neighborSpecies pts k q ≠ [] := by
    have hlen2 : (neighborSpecies pts k q).length = min k pts.length := by
      simp only [neighborSpecies, nearestNeighbors, List.length_map, List.length_take,
        length_sortedRecords]
    intro hcon
    rw [hcon] at hlen2
    simp only [List.length_nil] at hlen2
    rcases Nat.min_eq_zero_iff.mp hlen2.symm with h0 | h0
    · omega
    · exact hne (List.length_eq_zero.mp h0)
  obtain ⟨r, hred, -, -, -, -⟩ := tally_reduce_spec (neighborSpecies pts k q) hns
  refine ⟨r.1, ?_⟩
  rw [classifyPoint_eq_foldl, hred]
  rfl

/-- Witness for C6: one point, k = 1. -/
theorem classify_total_witness :
    ([⟨"A", some 1, some 2⟩] : List Penguin) ≠ [] ∧ 1 ≤ 1
    ∧ ∃ lab, classifyPoint [⟨"A", some 1, some 2⟩] 1 (0, 0) = Except.ok lab :=
  ⟨by decide, by decide, classify_total _ 1 (0, 0) (by decide) (by decide)⟩

/-- C9 (code bug): the density overlay runs the same rollup-and-reduce rule as
the classifier, but over the bin elements, which are the bare coordinate
arrays built at App.tsx line 65 and carry no species field: the tallied key is
the JavaScript undefined for every element, so the computed "majority label"
of every occupied cell is undefined rather than a species.  Here a bin holding
the single point (40, 18) of species "Adelie" yields undefined (`none`), while
the same rule applied to the labeled point yields "Adelie". -/
theorem density_species_undefined :
    densityMajority [((some 40 : JsNum), (some 18 : JsNum))] = Except.ok none
    ∧ jsMajorityBy Penguin.species [⟨"Adelie", some 40, some 18⟩] = Except.ok "Adelie" := by
  constructor
  · simp [densityMajority, jsMajorityBy, rollupCount, tallyInsert, jsReduce, binSpecies,
      Except.map]
  · simp [jsMajorityBy, rollupCount, tallyInsert, jsReduce, Except.map]

/-- C10: the density field contains an entry only for cells with at least one
assigned point — a cell to which the (spec-modelled) binning assigns no point
of the hexbin input has no entry at all in the density field. -/
theorem density_absent_for_empty_cells (data : List Penguin) (k : ℕ)
    (centers : List Point) (c : Point)
    (h : (hexbinInput data k).filter (fun p => decide (assignBin centers p = some c)) = []) :
    ∀ e ∈ densityField data k centers, e.1 ≠ c := by
  intro e he
  simp only [densityField, List.mem_map] at he
  obtain ⟨b, hb, rfl⟩ := he
  simp only [buildBins, List.mem_filterMap] at hb
  obtain ⟨c0, _, hsome⟩ := hb
  by_cases hempty :
      ((hexbinInput data k).filter (fun p => decide (assignBin centers p = some c0))).isEmpty = true
  · rw [if_pos hempty] at hsome
    cases hsome
  · rw [if_neg hempty] at hsome
    injection hsome with hb2
    intro hec
    apply hempty
    rw [List.isEmpty_iff]
    have hc0c : c0 = c := (congrArg Prod.fst hb2).trans hec
    rw [hc0c]
    exact h

/-- Witness for C10: a one-point dataset assigned to the first of two cells;
the second cell receives no point and has no density entry. -/
theorem density_absent_for_empty_cells_witness :
    (hexbinInput [⟨"A", none, none⟩] 1).filter
        (fun p => decide (assignBin [((0 : ℚ), (0 : ℚ)), ((5 : ℚ), (5 : ℚ))] p
          = some ((5 : ℚ), (5 : ℚ)))) = []
    ∧ ∀ e ∈ densityField [⟨"A", none, none⟩] 1 [((0 : ℚ), (0 : ℚ)), ((5 : ℚ), (5 : ℚ))],
        e.1 ≠ ((5 : ℚ), (5 : ℚ)) :=
  ⟨by decide, density_absent_for_empty_cells _ _ _ _ (by decide)⟩
